import Mathlib

/-!
Verification of the document-generation service (HTML to DOCX/PDF renderer).

Strings are modelled as `List Char`.  Each definition is a shallow embedding
of one JavaScript function of the repository; the JS regular expressions used
by the source are deterministic enough to be re-expressed as direct scans,
which is recorded next to each definition.  External library effects
(the docx object model, zlib, the network) appear as explicit parameters or
as plain value constructors.
-/

/-- JS `String.prototype.trim` whitespace test (space, tab, LF, VT, FF, CR;
the remaining unicode space code points do not occur in the inputs treated
here). -/
def isWsB (c : Char) : Bool :=
  c == ' ' || c == Char.ofNat 9 || c == Char.ofNat 10 ||
  c == Char.ofNat 11 || c == Char.ofNat 12 || c == Char.ofNat 13

/-- JS `String.prototype.trim`. -/
def jsTrim (s : List Char) : List Char :=
  ((s.dropWhile isWsB).reverse.dropWhile isWsB).reverse

/-- Does `pat` occur as a contiguous substring?  (JS `String.prototype.includes`,
and the success test of a literal regex search.) -/
def occursB (pat : List Char) : List Char → Bool
  | [] => pat.isPrefixOf []
  | c :: rest => pat.isPrefixOf (c :: rest) || occursB pat rest

/-- Fuel-driven worker for global literal replacement: JS
`String.prototype.replace` with a global regex whose pattern is the literal
string `pat` (left to right, non-overlapping, the replacement is not
re-scanned).  The fuel only serves termination; callers pass `s.length`,
which is always sufficient because a match consumes at least one character. -/
def replaceAllF (pat rep : List Char) : Nat → List Char → List Char
  | 0, s => s
  | _ + 1, [] => []
  | f + 1, c :: rest =>
    if pat.isPrefixOf (c :: rest) then
      rep ++ replaceAllF pat rep f ((c :: rest).drop pat.length)
    else
      c :: replaceAllF pat rep f rest

/-- Global literal replacement (JS `.replace(/pat/g, rep)` for a literal
pattern without metacharacters). -/
def replaceAll (pat rep s : List Char) : List Char :=
  replaceAllF pat rep s.length s

/-- JS `String.prototype.replace` with a plain string pattern: only the first
occurrence is replaced and the replacement is inserted verbatim (the
replacements used by the source are digit strings, so the JS dollar escapes
cannot fire). -/
def replaceFirst (pat rep : List Char) : List Char → List Char
  | [] => []
  | c :: rest =>
    if pat.isPrefixOf (c :: rest) then
      rep ++ (c :: rest).drop pat.length
    else
      c :: replaceFirst pat rep rest

/-- State machine equivalent to the global regex deletion `<[^>]*>`:
outside a tag, a `<` opens a tag exactly when some `>` follows (the regex
cannot match otherwise, because `[^>]*` cannot cross a `>`); inside a tag
every character up to and including the first `>` is dropped. -/
def stripGo : Bool → List Char → List Char
  | true, [] => []
  | true, c :: r => if c == '>' then stripGo false r else stripGo true r
  | false, [] => []
  | false, c :: r =>
    if c == '<' && r.contains '>' then stripGo true r else c :: stripGo false r

/-- `html.replace(/<[^>]*>/g, '')` from `DOCXService.cleanHtml`. -/
def stripTags (s : List Char) : List Char := stripGo false s

/-- The literal entity `&nbsp;`. -/
def nbspToken : List Char := "&nbsp;".data

/-- `DOCXService.cleanHtml` (docxService.js): strip tags, then replace every
`&nbsp;` by a space, then trim. -/
def cleanHtml (html : List Char) : List Char :=
  jsTrim (replaceAll nbspToken [' '] (stripTags html))

/-- Double quote and single quote characters (written by code point to keep
literals simple). -/
def dqc : Char := Char.ofNat 34

/-- Single quote character. -/
def sqc : Char := Char.ofNat 39

/-- The literal `class=Q1page-breakQ2` for a choice of the two quote
characters; the regex `class=["']page-break["']` accepts the four
combinations independently. -/
def classLit (q1 q2 : Char) : List Char :=
  ("class=".data) ++ [q1] ++ ("page-break".data) ++ [q2]

/-- Does the tag body contain one of the four quote combinations of the
page-break class attribute? -/
def hasClassLit (run : List Char) : Bool :=
  occursB (classLit dqc dqc) run || occursB (classLit dqc sqc) run ||
  occursB (classLit sqc dqc) run || occursB (classLit sqc sqc) run

/-- Length of the match of `<div[^>]*class=["']page-break["'][^>]*>` starting
at the head of `s`, if any.  A match starts with `<div`, must find the class
literal among the characters before the first following `>` (neither
`[^>]*` piece can cross a `>`), and ends at that first `>`. -/
def pageBreakLen (s : List Char) : Option Nat :=
  if ("<div".data).isPrefixOf s then
    let rest := s.drop 4
    let run := rest.takeWhile (fun c => !(c == '>'))
    if hasClassLit run && decide (run.length < rest.length) then
      some (4 + run.length + 1)
    else
      none
  else none

/-- JS `String.prototype.split` on the page-break regex: scan left to right;
each match ends the current piece and is discarded.  Fuel is the scanned
length; every step consumes at least one character. -/
def splitOnPageBreaks : Nat → List Char → List Char → List (List Char)
  | 0, acc, s => [acc.reverse ++ s]
  | _ + 1, acc, [] => [acc.reverse]
  | f + 1, acc, c :: rest =>
    match pageBreakLen (c :: rest) with
    | some n => acc.reverse :: splitOnPageBreaks f [] ((c :: rest).drop n)
    | none => splitOnPageBreaks f (c :: acc) rest

/-- The raw pieces of `content.split(/<div[^>]*class=["']page-break["'][^>]*>/g)`;
with k matches this list has k+1 entries. -/
def splitRawPages (content : List Char) : List (List Char) :=
  splitOnPageBreaks content.length [] content

/-- `DOCXService.splitContentIntoPages` (docxService.js:109-115): split at the
page-break markers, trim each piece, keep only non-empty pieces. -/
def splitContentIntoPages (content : List Char) : List (List Char) :=
  ((splitRawPages content).map jsTrim).filter (fun p => !p.isEmpty)

/-- Number of page-break markers the split saw (pieces minus one). -/
def countPageBreakMarkers (content : List Char) : Nat :=
  (splitRawPages content).length - 1

/-- Does a block-opening tag of `convertContent`s lookahead regex
`(?=<(?:p|table|ul|ol|h[1-6]|img)[^>]*>)` match at the head of `s`?  The
alternation needs `<` + one of the tag openers + a later `>` (again `[^>]*`
cannot cross a `>`). -/
def blockStartsAt (s : List Char) : Bool :=
  (["p", "table", "ul", "ol", "h1", "h2", "h3", "h4", "h5", "h6", "img"].map
    (fun t => String.data ("<" ++ t))).any
    (fun tag => tag.isPrefixOf s && (s.drop tag.length).contains '>')

/-- JS `String.prototype.split` on the zero-width lookahead: a boundary is any
position after the start of the current piece where the lookahead matches;
pieces are the maximal runs between boundaries (a zero-width match at the
start of the current piece does not cut, per the ECMAScript split
algorithm). -/
def splitBlocks (acc : List Char) : List Char → List (List Char)
  | [] => [acc.reverse]
  | c :: rest =>
    if blockStartsAt (c :: rest) && !acc.isEmpty then
      acc.reverse :: splitBlocks [c] rest
    else
      splitBlocks (c :: acc) rest

/-- A text or image run inside a DOCX paragraph (docx `TextRun` / `ImageRun`
restricted to the fields the source sets; `size := none` means the library
default). -/
inductive DocxRun
  | text (s : List Char) (size : Option Nat) (bold : Bool)
  | image (src : List Char) (w h : Nat)

/-- A DOCX block element as assembled by the source (paragraphs carrying
their runs, bullet flag and centering; tables carrying rows of cells). -/
inductive DocxElem
  | para (runs : List DocxRun) (bullet : Bool) (centered : Bool)
  | table (rows : List (List DocxElem))

/-- First capture of `src=["'](.*?)["']`: scan for the leftmost `src=` that is
directly followed by a quote and for which a closing quote (of either kind,
the lazy group stops at the first one) exists; otherwise keep scanning. -/
def srcMatch : List Char → Option (List Char)
  | [] => none
  | c :: rest =>
    if ("src=".data).isPrefixOf (c :: rest) then
      match (c :: rest).drop 4 with
      | q :: r =>
        if q == dqc || q == sqc then
          let cap := r.takeWhile (fun x => !(x == dqc || x == sqc))
          if cap.length < r.length then some cap else srcMatch rest
        else srcMatch rest
      | [] => srcMatch rest
    else srcMatch rest

/-- Decimal value of a digit string (JS `parseInt` on a `\d+` capture). -/
def decValue (ds : List Char) : Nat :=
  ds.foldl (fun a c => a * 10 + (c.toNat - 48)) 0

/-- First capture of `attr["'](\d+)["']` (used with `attr` = `width=` /
`height=`): leftmost occurrence of the attribute followed by a quote, one or
more digits, and a closing quote of either kind. -/
def attrNum (attr : List Char) : List Char → Option Nat
  | [] => none
  | c :: rest =>
    if attr.isPrefixOf (c :: rest) then
      match (c :: rest).drop attr.length with
      | q :: r =>
        if q == dqc || q == sqc then
          let ds := r.takeWhile Char.isDigit
          match r.drop ds.length with
          | q2 :: _ =>
            if !ds.isEmpty && (q2 == dqc || q2 == sqc) then some (decValue ds)
            else attrNum attr rest
          | [] => attrNum attr rest
        else attrNum attr rest
      | [] => attrNum attr rest
    else attrNum attr rest

/-- Index of the first position where `closeAt` fires. -/
def findClose (closeAt : List Char → Bool) : List Char → Option Nat
  | [] => none
  | c :: rest =>
    if closeAt (c :: rest) then some 0
    else (findClose closeAt rest).map (· + 1)

/-- Length of a match of `OPEN[^>]*>(.*?)CLOSE` (with the `s` flag) starting
at the head of `s`: the opener, its `>`-terminated attribute run, the lazy
body up to the first close marker, and the close marker. -/
def pairMatchLen (openAt : List Char → Bool) (openLen : Nat)
    (closeAt : List Char → Bool) (closeLen : Nat) (s : List Char) : Option Nat :=
  if openAt s then
    let rest := s.drop openLen
    let run := rest.takeWhile (fun c => !(c == '>'))
    if run.length < rest.length then
      match findClose closeAt (rest.drop (run.length + 1)) with
      | some i => some (openLen + run.length + 1 + i + closeLen)
      | none => none
    else none
  else none

/-- All full matches of a global regex scan (JS `String.prototype.match` with
the `g` flag): at each position try the matcher; on success record the
matched substring and resume after it, otherwise advance one character. -/
def scanMatches (matchLenAt : List Char → Option Nat) : Nat → List Char → List (List Char)
  | 0, _ => []
  | _ + 1, [] => []
  | f + 1, c :: rest =>
    match matchLenAt (c :: rest) with
    | some n => (c :: rest).take n :: scanMatches matchLenAt f ((c :: rest).drop n)
    | none => scanMatches matchLenAt f rest

/-- Matcher for `<tr[^>]*>(.*?)<\/tr>`. -/
def trMatchLen : List Char → Option Nat :=
  pairMatchLen (fun s => ("<tr".data).isPrefixOf s) 3
    (fun s => ("</tr>".data).isPrefixOf s) 5

/-- Matcher for `<t[dh][^>]*>(.*?)<\/t[dh]>` (opening and closing markers may
mix `td`/`th`, as the regex character classes are independent). -/
def cellMatchLen : List Char → Option Nat :=
  pairMatchLen (fun s => ("<td".data).isPrefixOf s || ("<th".data).isPrefixOf s) 3
    (fun s => ("</td>".data).isPrefixOf s || ("</th>".data).isPrefixOf s) 5

/-- Matcher for `<li[^>]*>(.*?)<\/li>`. -/
def liMatchLen : List Char → Option Nat :=
  pairMatchLen (fun s => ("<li".data).isPrefixOf s) 3
    (fun s => ("</li>".data).isPrefixOf s) 5

/-- `html.match(/<tr[^>]*>(.*?)<\/tr>/gs) || []` from `convertTable`. -/
def trMatches (html : List Char) : List (List Char) :=
  scanMatches trMatchLen html.length html

/-- `row.match(/<t[dh][^>]*>(.*?)<\/t[dh]>/gs) || []` from `convertTable`. -/
def cellMatches (row : List Char) : List (List Char) :=
  scanMatches cellMatchLen row.length row

/-- `html.match(/<li[^>]*>(.*?)<\/li>/gs) || []` from `convertList`. -/
def liMatches (html : List Char) : List (List Char) :=
  scanMatches liMatchLen html.length html

/-- `DOCXService.convertParagraph` (docxService.js:326-340): one paragraph,
one text run of the cleaned text, size 20 in header/footer and 24 in the
body, centered only in header/footer, never bold, never bulleted. -/
def convertParagraph (html : List Char) (isHeaderFooter : Bool) : DocxElem :=
  DocxElem.para
    [DocxRun.text (cleanHtml html) (some (if isHeaderFooter then 20 else 24)) false]
    false isHeaderFooter

/-- `DOCXService.convertTable` (docxService.js:260-280): extracted rows, each
row mapped to its extracted cells, each cell a default paragraph.  In this
embedding the docx `Table`/`TableRow`/`TableCell` constructors are total
value constructors, so the `catch` fallback (degrade to a paragraph of the
whole markup) never fires here. -/
def convertTable (html : List Char) : DocxElem :=
  DocxElem.table ((trMatches html).map
    (fun row => (cellMatches row).map (fun cell => convertParagraph cell false)))

/-- `DOCXService.convertList` (docxService.js:288-307): one bulleted
paragraph per extracted item, default run size, never bold. -/
def convertList (html : List Char) : List DocxElem :=
  (liMatches html).map
    (fun item => DocxElem.para [DocxRun.text (cleanHtml item) none false] true false)

/-- First capture of `<h([1-6])`, defaulting to level 1 (`convertHeading`). -/
def headingLevel : List Char → Nat
  | '<' :: 'h' :: d :: rest =>
    if '1' ≤ d && d ≤ '6' then d.toNat - 48 else headingLevel ('h' :: d :: rest)
  | _ :: rest => headingLevel rest
  | [] => 1

/-- `DOCXService.convertHeading` (docxService.js:309-324): bold run of the
cleaned text with size `32 - 2 * level`. -/
def convertHeading (html : List Char) : DocxElem :=
  DocxElem.para
    [DocxRun.text (cleanHtml html) (some (32 - headingLevel html * 2)) true]
    false false

/-- `DOCXService.convertImage` (docxService.js:161-188): extract `src` (no
src → `null`, the block is skipped), extract explicit width/height or use the
header/footer-dependent defaults; the fetched image bytes are an external
effect and are not part of the block value.  The result is a centered
paragraph holding one image run. -/
def convertImage (html : List Char) (isHeaderFooter : Bool) : Option DocxElem :=
  (srcMatch html).map (fun src =>
    DocxElem.para
      [DocxRun.image src
        ((attrNum ("width=".data) html).getD (if isHeaderFooter then 550 else 400))
        ((attrNum ("height=".data) html).getD (if isHeaderFooter then 80 else 300))]
      false true)

/-- Length of a match of `<img[^>]*>` at the head of `s`. -/
def imgTagLen (s : List Char) : Option Nat :=
  if ("<img".data).isPrefixOf s then
    let rest := s.drop 4
    let run := rest.takeWhile (fun c => !(c == '>'))
    if run.length < rest.length then some (4 + run.length + 1) else none
  else none

/-- JS `String.prototype.split` on the capturing regex `(<img[^>]*>)`: the
pieces between matches interleaved with the captured matches themselves
(empty pieces included). -/
def splitKeepImg : Nat → List Char → List Char → List (List Char)
  | 0, acc, s => [acc.reverse ++ s]
  | _ + 1, acc, [] => [acc.reverse]
  | f + 1, acc, c :: rest =>
    match imgTagLen (c :: rest) with
    | some n =>
      acc.reverse :: (c :: rest).take n :: splitKeepImg f [] ((c :: rest).drop n)
    | none => splitKeepImg f (c :: acc) rest

/-- `DOCXService.convertMixedContent` (docxService.js:194-231): split into
text parts and image tags; image parts with a `src` give an image run with
the fixed dimensions, non-blank text parts give a cleaned text run; one
paragraph, centered only in header/footer. -/
def convertMixedContent (html : List Char) (isHeaderFooter : Bool) : DocxElem :=
  DocxElem.para
    ((splitKeepImg html.length [] html).foldr
      (fun part acc =>
        if ("<img".data).isPrefixOf part then
          match srcMatch part with
          | some src =>
            DocxRun.image src (if isHeaderFooter then 550 else 400)
              (if isHeaderFooter then 80 else 300) :: acc
          | none => acc
        else if (jsTrim part).isEmpty then acc
        else
          DocxRun.text (cleanHtml part)
            (some (if isHeaderFooter then 20 else 24)) false :: acc)
      [])
    false isHeaderFooter

/-- The dispatch inside the block loop of `convertContent`
(docxService.js:130-150): `<img` prefix → image (skipped when `null`),
`<table` prefix → table, a contained `<img` → mixed content, otherwise a
plain paragraph.  In this embedding image fetching is not a failing effect,
so the `catch` fallback (paragraph of the raw block) never fires. -/
def convertBlock (block : List Char) (isHeaderFooter : Bool) : List DocxElem :=
  if ("<img".data).isPrefixOf block then (convertImage block isHeaderFooter).toList
  else if ("<table".data).isPrefixOf block then [convertTable block]
  else if occursB ("<img".data) block then [convertMixedContent block isHeaderFooter]
  else [convertParagraph block isHeaderFooter]

/-- `DOCXService.convertContent` (docxService.js:124-153): empty input gives
no elements; otherwise split at block-opening boundaries, skip blocks that
are blank after trimming, and convert each remaining block.  There is no
branch for list or heading blocks: they reach the final `else`. -/
def convertContent (html : List Char) (isHeaderFooter : Bool) : List DocxElem :=
  if html.isEmpty then []
  else
    (splitBlocks [] html).foldr
      (fun block acc =>
        if (jsTrim block).isEmpty then acc
        else convertBlock block isHeaderFooter ++ acc)
      []

/-- Decimal digit character. -/
def digitChar : Nat → Char
  | 0 => '0' | 1 => '1' | 2 => '2' | 3 => '3' | 4 => '4'
  | 5 => '5' | 6 => '6' | 7 => '7' | 8 => '8' | _ => '9'

/-- Fuel-driven decimal rendering worker. -/
def natToDecAux : Nat → Nat → List Char
  | 0, _ => []
  | f + 1, n =>
    if n < 10 then [digitChar n] else natToDecAux f (n / 10) ++ [digitChar (n % 10)]

/-- JS `Number.prototype.toString` on a non-negative integer: its decimal
digits. -/
def natToDec (n : Nat) : List Char := natToDecAux (n + 1) n

/-- The literal token replaced by the page number (braces written by code
point escape). -/
def pageTok : List Char := "\x7b\x7bpage\x7d\x7d".data

/-- The literal token replaced by the page count. -/
def totalTok : List Char := "\x7b\x7btotal\x7d\x7d".data

/-- The footer string built inside `generateDOCX` (docxService.js:70-75):
`footer.replace('{{page}}', (index + 1).toString()).replace('{{total}}',
pages.length.toString())` — plain-string `replace`, so first occurrences
only. -/
def footerForPage (footer : List Char) (pageNo total : Nat) : List Char :=
  replaceFirst totalTok (natToDec total)
    (replaceFirst pageTok (natToDec pageNo) footer)

/-- One DOCX section as assembled by `generateDOCX` (docxService.js:51-78):
section type (`NEXT_PAGE` for index > 0, else `CONTINUOUS`), header blocks,
footer blocks built from the page-substituted footer, and the body blocks of
the page. -/
structure SectionM where
  nextPage : Bool
  headerElems : List DocxElem
  footerElems : List DocxElem
  children : List DocxElem

/-- The section built for the page at 0-based `index`. -/
def mkSection (header footer : List Char) (total index : Nat)
    (pageContent : List Char) : SectionM :=
  { nextPage := decide (0 < index)
    headerElems := convertContent header true
    footerElems := convertContent (footerForPage footer (index + 1) total) true
    children := convertContent pageContent false }

/-- `pages.map((pageContent, index) => ...)` of `generateDOCX`. -/
def mkSectionsAux (header footer : List Char) (total : Nat) :
    Nat → List (List Char) → List SectionM
  | _, [] => []
  | i, p :: ps =>
    mkSection header footer total i p :: mkSectionsAux header footer total (i + 1) ps

/-- The full section list of `generateDOCX` for the given header, content and
footer. -/
def mkSections (header content footer : List Char) : List SectionM :=
  mkSectionsAux header footer (splitContentIntoPages content).length 0
    (splitContentIntoPages content)

/-- The per-section watermark application of
`WatermarkService.addWatermarkToDOCX` (watermarkService.js:59-65):
`doc.sections.forEach(section => add...WatermarkToSection(section, content))`.
The docx-library mutation performed on each section is the abstract
parameter `perSection`; a thrown error aborts the loop. -/
def applyWatermarkToSections (perSection : SectionM → Except (List Char) SectionM)
    (sections : List SectionM) : Except (List Char) (List SectionM) :=
  sections.mapM perSection

/-- `WatermarkService.addWatermarkToDOCX` of src/services/watermarkService.js
(lines 53-72): run the per-section loop inside `try`; the `catch` logs the
error and then RE-THROWS it (`throw error`). -/
def addWatermarkToDOCX_src (perSection : SectionM → Except (List Char) SectionM)
    (sections : List SectionM) : Except (List Char) (List SectionM) :=
  match applyWatermarkToSections perSection sections with
  | Except.ok s => Except.ok s
  | Except.error e => Except.error e

/-- `WatermarkService.addWatermarkToDOCX` of the duplicate revision in
unnamed part_006 (lines 184-195): the `catch` logs the error and does not
rethrow, so the call always returns normally. -/
def addWatermarkToDOCX_p6 (body : Except (List Char) Unit) : Except (List Char) Unit :=
  match body with
  | Except.ok _ => Except.ok ()
  | Except.error _ => Except.ok ()

/-- Watermark kinds accepted by the request schema. -/
inductive WmKind
  | text
  | image
deriving DecidableEq

/-- A watermark specification `{ type, content }`. -/
structure WmSpec where
  kind : WmKind
  content : List Char

/-- `DOCXService.generateDOCX` (docxService.js:45-101) restricted to its
document assembly: build the sections; if a watermark is present run
`watermarkService.addWatermarkToDOCX` — a failure there propagates through
the outer `try`/`catch`, which logs and rethrows (line 97-99). -/
def generateDOCX_model (perSection : SectionM → Except (List Char) SectionM)
    (header content footer : List Char) (wm : Option WmSpec) :
    Except (List Char) (List SectionM) :=
  let sections := mkSections header content footer
  match wm with
  | none => Except.ok sections
  | some _ =>
    match addWatermarkToDOCX_src perSection sections with
    | Except.ok s => Except.ok s
    | Except.error e => Except.error e

/-- Is an `Except` value a success? -/
def isOkE : Except (List Char) (List SectionM) → Bool
  | Except.ok _ => true
  | Except.error _ => false

/-- Placeholder token for a key: `{{key}}` (braces by code point escape). -/
def placeholderToken (key : List Char) : List Char :=
  ("\x7b\x7b".data) ++ key ++ ("\x7d\x7d".data)

/-- `DocumentService.replacePlaceholders` (unnamed part_005:99-118 /
part_006:116-129): fold over the mapping entries in order, each step a
global replace of `{{key}}` by the value.  Keys are mapped through the
literal token (the source interpolates the key into a regex; the keys used
here contain no regex metacharacters). -/
def replacePlaceholders (placeholders : List (List Char × List Char))
    (text : List Char) : List Char :=
  placeholders.foldl (fun acc kv => replaceAll (placeholderToken kv.1) kv.2 acc) text

/-- The side condition of the idempotence claim, read literally: no value of
the mapping contains the placeholder token of a DIFFERENT key. -/
def noCrossKeyPlaceholder (m : List (List Char × List Char)) : Bool :=
  m.all (fun kv => m.all (fun kv2 =>
    kv2.1 == kv.1 || !occursB (placeholderToken kv2.1) kv.2))

/-- `DocumentService.handleFileSize` (unnamed part_005:84-97): if the byte
size exceeds `maxFileSizeMB` megabytes, overwrite the stored bytes with
their gzip compression (`zlib.gzip` is the abstract parameter `gzipF`).
The source compares `size / (1024 * 1024) > maxFileSizeMB`; for an integer
size and integer limit that exact comparison is equivalent to the integer
comparison used here (the double rounding error of the division is far
smaller than the distance to the threshold except at it, where both sides
agree). -/
def handleFileSize (gzipF : List Nat → List Nat) (maxFileSizeMB : Nat)
    (bytes : List Nat) : List Nat :=
  if maxFileSizeMB * (1024 * 1024) < bytes.length then gzipF bytes else bytes

/-- The mime type chosen by `DocumentService.generateDocument`
(part_005:76). -/
def mimeTypeFor (documentType : List Char) : List Char :=
  if documentType = ("pdf".data) then "application/pdf".data
  else "application/vnd.openxmlformats-officedocument.wordprocessingml.document".data

/-- The artifact returned by `DocumentService.generateDocument`. -/
structure ArtifactGen where
  bytes : List Nat
  filename : List Char
  mimeType : List Char

/-- Tail of `DocumentService.generateDocument` (part_005:70-77): after a
backend produced `renderedBytes`, run `handleFileSize`, then return the
artifact whose filename is `requestId + '.' + documentType` and whose mime
type depends only on `documentType`. -/
def generateDocument_sizeGov (gzipF : List Nat → List Nat) (maxFileSizeMB : Nat)
    (renderedBytes : List Nat) (requestId documentType : List Char) : ArtifactGen :=
  { bytes := handleFileSize gzipF maxFileSizeMB renderedBytes
    filename := requestId ++ '.' :: documentType
    mimeType := mimeTypeFor documentType }

/-- The canonical base64 alphabet character of a sextet. -/
def b64Char (n : Nat) : Char :=
  if n < 26 then Char.ofNat (65 + n)
  else if n < 52 then Char.ofNat (97 + (n - 26))
  else if n < 62 then Char.ofNat (48 + (n - 52))
  else if n = 62 then '+' else '/'

/-- The sextet of a base64 alphabet character. -/
def b64Val (c : Char) : Nat :=
  if 65 ≤ c.toNat && c.toNat ≤ 90 then c.toNat - 65
  else if 97 ≤ c.toNat && c.toNat ≤ 122 then c.toNat - 97 + 26
  else if 48 ≤ c.toNat && c.toNat ≤ 57 then c.toNat - 48 + 52
  else if c == '+' then 62 else 63

/-- Membership in the base64 alphabet (padding `=` excluded). -/
def isB64Char (c : Char) : Bool :=
  (65 ≤ c.toNat && c.toNat ≤ 90) || (97 ≤ c.toNat && c.toNat ≤ 122) ||
  (48 ≤ c.toNat && c.toNat ≤ 57) || c == '+' || c == '/'

/-- Node `Buffer.prototype.toString('base64')`: canonical base64 with `=`
padding, three bytes per four characters. -/
def b64Encode : List Nat → List Char
  | [] => []
  | [b1] => [b64Char (b1 / 4), b64Char (b1 % 4 * 16), '=', '=']
  | [b1, b2] =>
    [b64Char (b1 / 4), b64Char (b1 % 4 * 16 + b2 / 16), b64Char (b2 % 16 * 4), '=']
  | b1 :: b2 :: b3 :: rest =>
    b64Char (b1 / 4) :: b64Char (b1 % 4 * 16 + b2 / 16) ::
    b64Char (b2 % 16 * 4 + b3 / 64) :: b64Char (b3 % 64) :: b64Encode rest

/-- Decoding of a cleaned (alphabet-only) character sequence: four sextets
per three bytes, a trailing group of two or three sextets giving one or two
bytes, a lone trailing sextet dropped. -/
def b64DecodeClean : List Char → List Nat
  | [] => []
  | [_] => []
  | [c1, c2] => [b64Val c1 * 4 + b64Val c2 / 16]
  | [c1, c2, c3] =>
    [b64Val c1 * 4 + b64Val c2 / 16, b64Val c2 % 16 * 16 + b64Val c3 / 4]
  | c1 :: c2 :: c3 :: c4 :: rest =>
    (b64Val c1 * 4 + b64Val c2 / 16) :: (b64Val c2 % 16 * 16 + b64Val c3 / 4) ::
    (b64Val c3 % 4 * 64 + b64Val c4) :: b64DecodeClean rest

/-- Node `Buffer.from(str, 'base64')`: forgiving decoding — characters
outside the alphabet (whitespace, padding, garbage) are ignored, then the
sextets are regrouped into bytes.  This never throws. -/
def nodeBase64Decode (s : List Char) : List Nat :=
  b64DecodeClean (s.filter isB64Char)

/-- `isBase64` (src/utils/helpers.js:1-7):
`Buffer.from(str, 'base64').toString('base64') === str`.  The surrounding
`try`/`catch` only guards non-string inputs, which the typed embedding
excludes; on strings the expression is total. -/
def isBase64 (s : List Char) : Bool :=
  b64Encode (nodeBase64Decode s) == s

/-- The wire request, after JSON parsing, restricted to the fields the
validator inspects. -/
structure DocReq where
  header : Option (List Char)
  content : Option (List Char)
  footer : Option (List Char)
  documentType : Option (List Char)
  watermark : Option WmSpec

/-- A required Joi string: present and non-empty. -/
def reqStr : Option (List Char) → Bool
  | some s => !s.isEmpty
  | none => false

/-- The Joi schema of models/documentRequest.js: `header`/`content` required
strings, `footer` effectively optional (`required().optional()` — the later
call wins), `documentType` one of `pdf`/`docx`, watermark optional with a
required non-empty content.  Field typing is enforced by the embedding. -/
def schemaOk (r : DocReq) : Bool :=
  reqStr r.header && reqStr r.content &&
  (match r.footer with
   | some f => !f.isEmpty
   | none => true) &&
  (r.documentType == some ("pdf".data) || r.documentType == some ("docx".data)) &&
  (match r.watermark with
   | some w => !w.content.isEmpty
   | none => true)

/-- Result of the validation middleware: an HTTP rejection, or fall through
to the next handler. -/
inductive ValidateResult
  | rejected (status : Nat) (msg : List Char)
  | pass

/-- `validateDocumentRequest` (src/middleware/validator.js:7-50): schema
check (400 on failure), HTML validation of header/content/footer (the JSDOM
sanitizer is external — its failure is the abstract flag
`htmlValidationFails`, caught as a 400), then the watermark checks: an image
watermark must satisfy `isBase64`, a text watermark must not exceed 100
characters; both failures throw a `ValidationError` answered with 400.
Only when nothing rejects is `next()` reached. -/
def validateDocumentRequest (r : DocReq) (htmlValidationFails : Bool) : ValidateResult :=
  if !schemaOk r then ValidateResult.rejected 400 ("schema validation failed".data)
  else if htmlValidationFails then ValidateResult.rejected 400 ("Invalid HTML".data)
  else
    match r.watermark with
    | some w =>
      match w.kind with
      | WmKind.image =>
        if !isBase64 w.content then
          ValidateResult.rejected 400 ("Watermark image must be a valid base64 string".data)
        else ValidateResult.pass
      | WmKind.text =>
        if 100 < w.content.length then
          ValidateResult.rejected 400 ("Watermark text must not exceed 100 characters".data)
        else ValidateResult.pass
    | none => ValidateResult.pass

/-- Outcome of the document route
(`router.post('/document', rateLimiter, validateDocumentRequest,
generateDocument)`, routes/v1/documentRoutes.js): a rejection response ends
the request; only `pass` reaches the controller, i.e. starts a render. -/
inductive RouteOutcome
  | responded (status : Nat) (msg : List Char)
  | rendered

/-- The middleware chain up to the point where rendering would begin. -/
def processDocumentRoute (r : DocReq) (htmlValidationFails : Bool) : RouteOutcome :=
  match validateDocumentRequest r htmlValidationFails with
  | ValidateResult.rejected s m => RouteOutcome.responded s m
  | ValidateResult.pass => RouteOutcome.rendered

/-- The spec scenario body
`<p>A</p><div class='page-break'></div><p>B</p>`. -/
def scenarioContent : List Char :=
  ("<p>A</p><div class=".data) ++ [sqc] ++ ("page-break".data) ++ [sqc] ++
  ("></div><p>B</p>".data)

/-- A body that is nothing but one page-break marker element:
`<div class='page-break'></div>`. -/
def lonePageBreak : List Char :=
  ("<div class=".data) ++ [sqc] ++ ("page-break".data) ++ [sqc] ++ ("></div>".data)

/-- What the splitter leaves as the second page of the scenario body. -/
def scenarioSecondPage : List Char := "</div><p>B</p>".data

/-- The footer template of the spec scenario: `Page {{page}} of {{total}}`. -/
def footerTemplate : List Char :=
  "Page \x7b\x7bpage\x7d\x7d of \x7b\x7btotal\x7d\x7d".data

/-- A one-entry mapping whose value contains the placeholder of its own key:
`a` maps to `x{{a}}`. -/
def cexPlaceholders : List (List Char × List Char) :=
  [(("a".data), ("x\x7b\x7ba\x7d\x7d".data))]

/-- The text `{{a}}`. -/
def cexText : List Char := "\x7b\x7ba\x7d\x7d".data

/-- The list block of the C5 failing input. -/
def ulInput : List Char := "<ul><li>x</li><li>y</li></ul>".data

/-- The heading block of the C5 failing input. -/
def h2Input : List Char := "<h2>T</h2>".data

/-- A per-section watermark application that always fails (stands for any
docx-library error while attaching the watermark, e.g. the undefined
`doc.sections` of a packed document or an invalid image payload). -/
def failPerSection : SectionM → Except (List Char) SectionM :=
  fun _ => Except.error ("boom".data)

/-- The output text may not contain a removable tag: after any `<` of the
text no `>` follows.  (`<[^>]*>` matches somewhere in `t` exactly when some
`<` of `t` has a later `>`.) -/
def TagFree (t : List Char) : Prop :=
  ∀ a b, t = a ++ '<' :: b → '>' ∉ b

theorem prefixOf_iff (p l : List Char) : p.isPrefixOf l = true ↔ ∃ t, l = p ++ t := by
  induction p generalizing l with
  | nil => simp [List.isPrefixOf]
  | cons a as ih =>
    cases l with
    | nil => simp [List.isPrefixOf]
    | cons b bs =>
      simp only [List.isPrefixOf, Bool.and_eq_true, beq_iff_eq, ih bs, List.cons_append]
      constructor
      · rintro ⟨rfl, t, rfl⟩
        exact ⟨t, rfl⟩
      · rintro ⟨t, h⟩
        injection h with h1 h2
        exact ⟨h1.symm, t, h2⟩

theorem prefixOf_append_self (l t : List Char) : l.isPrefixOf (l ++ t) = true :=
  (prefixOf_iff l (l ++ t)).mpr ⟨t, rfl⟩

theorem occursB_iff (pat l : List Char) :
    occursB pat l = true ↔ ∃ a b, l = a ++ pat ++ b := by
  induction l with
  | nil =>
    simp only [occursB, prefixOf_iff]
    constructor
    · rintro ⟨t, h⟩
      exact ⟨[], t, h⟩
    · rintro ⟨a, b, h⟩
      rcases List.append_eq_nil.mp h.symm with ⟨h1, h2⟩
      rcases List.append_eq_nil.mp h1 with ⟨rfl, rfl⟩
      exact ⟨b, by simpa using h⟩
  | cons c cs ih =>
    simp only [occursB, Bool.or_eq_true, prefixOf_iff, ih]
    constructor
    · rintro (⟨t, h⟩ | ⟨a, b, h⟩)
      · exact ⟨[], t, by simpa using h⟩
      · exact ⟨c :: a, b, by simp [h]⟩
    · rintro ⟨a, b, h⟩
      cases a with
      | nil =>
        exact Or.inl ⟨b, by simpa using h⟩
      | cons a0 as =>
        injection h with h1 h2
        exact Or.inr ⟨as, b, h2⟩

theorem replaceAllF_no_occur (pat rep : List Char) :
    ∀ f s, occursB pat s = false → replaceAllF pat rep f s = s := by
  intro f
  induction f with
  | zero => intro s _; rfl
  | succ f ih =>
    intro s h
    cases s with
    | nil => rfl
    | cons c rest =>
      have h2 : (pat.isPrefixOf (c :: rest) || occursB pat rest) = false := h
      have h3 := Bool.or_eq_false_iff.mp h2
      simp [replaceAllF, h3.1, ih rest h3.2]

theorem replaceAllF_mem (pat rep : List Char) :
    ∀ f s x, x ∈ replaceAllF pat rep f s → x ∈ s ∨ x ∈ rep := by
  intro f
  induction f with
  | zero => intro s x hx; exact Or.inl hx
  | succ f ih =>
    intro s x hx
    cases s with
    | nil => cases hx
    | cons c rest =>
      by_cases hp : pat.isPrefixOf (c :: rest) = true
      · rw [replaceAllF, if_pos hp] at hx
        rcases List.mem_append.mp hx with h | h
        · exact Or.inr h
        · rcases ih _ x h with h' | h'
          · exact Or.inl (List.mem_of_mem_drop h')
          · exact Or.inr h'
      · rw [replaceAllF, if_neg hp] at hx
        rcases List.mem_cons.mp hx with h | h
        · exact Or.inl (h ▸ List.mem_cons_self c rest)
        · rcases ih _ x h with h' | h'
          · exact Or.inl (List.mem_cons_of_mem c h')
          · exact Or.inr h'

theorem replacePlaceholders_fixed :
    ∀ (m : List (List Char × List Char)) (s : List Char),
      (∀ kv ∈ m, occursB (placeholderToken kv.1) s = false) →
      replacePlaceholders m s = s := by
  intro m
  induction m with
  | nil => intro s _; rfl
  | cons kv m' ih =>
    intro s h
    have h1 : replaceAll (placeholderToken kv.1) kv.2 s = s :=
      replaceAllF_no_occur _ _ _ s (h kv (List.mem_cons_self kv m'))
    have : replacePlaceholders (kv :: m') s = replacePlaceholders m' (replaceAll (placeholderToken kv.1) kv.2 s) := rfl
    rw [this, h1]
    exact ih s (fun kv' hkv' => h kv' (List.mem_cons_of_mem kv hkv'))

theorem stripGo_mem : ∀ (s : List Char) (m : Bool) (x : Char), x ∈ stripGo m s → x ∈ s := by
  intro s
  induction s with
  | nil => intro m x hx; cases m <;> simp [stripGo] at hx
  | cons c r ih =>
    intro m x hx
    cases m with
    | true =>
      rw [stripGo] at hx
      split at hx
      · exact List.mem_cons_of_mem c (ih false x hx)
      · exact List.mem_cons_of_mem c (ih true x hx)
    | false =>
      rw [stripGo] at hx
      split at hx
      · exact List.mem_cons_of_mem c (ih true x hx)
      · rcases List.mem_cons.mp hx with h | h
        · exact h ▸ List.mem_cons_self c r
        · exact List.mem_cons_of_mem c (ih false x h)

theorem tagFree_nil : TagFree [] := by
  intro a b h
  rcases List.append_eq_nil.mp h.symm with ⟨_, h2⟩
  cases h2

theorem tagFree_tail (c : Char) (t : List Char) (h : TagFree (c :: t)) : TagFree t := by
  intro a b hab
  exact h (c :: a) b (by simp [hab])

theorem tagFree_suffix : ∀ (u t : List Char), TagFree (u ++ t) → TagFree t := by
  intro u
  induction u with
  | nil => intro t h; exact h
  | cons c us ih => intro t h; exact ih t (tagFree_tail c (us ++ t) h)

theorem tagFree_drop (n : Nat) (t : List Char) (h : TagFree t) : TagFree (t.drop n) :=
  tagFree_suffix (t.take n) (t.drop n) (by rw [List.take_append_drop]; exact h)

theorem tagFree_infix (u t v : List Char) (h : TagFree (u ++ t ++ v)) : TagFree t := by
  have h1 : TagFree (t ++ v) :=
    tagFree_suffix u (t ++ v) (by rw [← List.append_assoc]; exact h)
  intro a b hab
  have h2 := h1 a (b ++ v) (by simp [hab])
  intro hb
  exact h2 (List.mem_append.mpr (Or.inl hb))

theorem stripGo_tagFree : ∀ (s : List Char) (m : Bool), TagFree (stripGo m s) := by
  intro s
  induction s with
  | nil => intro m; cases m <;> exact tagFree_nil
  | cons c r ih =>
    intro m
    cases m with
    | true =>
      rw [stripGo]
      split
      · exact ih false
      · exact ih true
    | false =>
      rw [stripGo]
      split
      · exact ih true
      · next hcond =>
        intro a b hab
        cases a with
        | nil =>
          simp only [List.nil_append] at hab
          injection hab with h1 h2
          intro hgt
          have hr : '>' ∈ r := stripGo_mem r false '>' (by rw [h2]; exact hgt)
          have hc : (c == '<' && r.contains '>') = true := by
            simp only [h1, beq_self_eq_true, Bool.true_and]
            exact List.elem_iff.mpr hr
          exact hcond hc
        | cons a0 as =>
          simp only [List.cons_append] at hab
          injection hab with h1 h2
          exact ih false as b h2

theorem tagFree_replaceAllF :
    ∀ f s, TagFree s → TagFree (replaceAllF nbspToken [' '] f s) := by
  intro f
  induction f with
  | zero => intro s h; exact h
  | succ f ih =>
    intro s h
    cases s with
    | nil => exact tagFree_nil
    | cons c rest =>
      by_cases hp : nbspToken.isPrefixOf (c :: rest) = true
      · rw [replaceAllF, if_pos hp]
        intro a b hab
        cases a with
        | nil =>
          simp only [List.nil_append, List.singleton_append] at hab
          injection hab with h1 h2
          exact absurd h1 (by decide)
        | cons a0 as =>
          simp only [List.singleton_append, List.cons_append] at hab
          injection hab with h1 h2
          exact ih _ (tagFree_drop nbspToken.length _ h) as b h2
      · rw [replaceAllF, if_neg hp]
        intro a b hab
        cases a with
        | nil =>
          simp only [List.nil_append] at hab
          injection hab with h1 h2
          intro hgt
          have hmem : '>' ∈ replaceAllF nbspToken [' '] f rest := by rw [h2]; exact hgt
          rcases replaceAllF_mem _ _ f rest '>' hmem with hm | hm
          · exact h [] rest (by simp [h1]) hm
          · simp at hm
        | cons a0 as =>
          simp only [List.cons_append] at hab
          injection hab with h1 h2
          exact ih rest (tagFree_tail c rest h) as b h2

theorem replaceAllF_prefix_nospace :
    ∀ (f : Nat) (s q : List Char), q.isPrefixOf (replaceAllF nbspToken [' '] f s) = true →
      (∀ c ∈ q, c ≠ ' ') → q.isPrefixOf s = true := by
  intro f
  induction f with
  | zero => intro s q h _; exact h
  | succ f ih =>
    intro s q h hq
    cases s with
    | nil => exact h
    | cons c rest =>
      by_cases hp : nbspToken.isPrefixOf (c :: rest) = true
      · rw [replaceAllF, if_pos hp] at h
        cases q with
        | nil => rfl
        | cons q0 qs =>
          simp only [List.singleton_append] at h
          simp only [List.isPrefixOf, Bool.and_eq_true, beq_iff_eq] at h
          exact absurd h.1 (hq q0 (List.mem_cons_self _ _))
      · rw [replaceAllF, if_neg hp] at h
        cases q with
        | nil => rfl
        | cons q0 qs =>
          simp only [List.isPrefixOf, Bool.and_eq_true] at h ⊢
          exact ⟨h.1, ih rest qs h.2 (fun x hx => hq x (List.mem_cons_of_mem _ hx))⟩

theorem replaceAllF_nbsp_free :
    ∀ f s, s.length ≤ f → occursB nbspToken (replaceAllF nbspToken [' '] f s) = false := by
  intro f
  induction f with
  | zero =>
    intro s hs
    have hnil : s = [] := List.eq_nil_of_length_eq_zero (Nat.le_zero.mp hs)
    subst hnil
    rfl
  | succ f ih =>
    intro s hs
    cases s with
    | nil => rfl
    | cons c rest =>
      by_cases hp : nbspToken.isPrefixOf (c :: rest) = true
      · rw [replaceAllF, if_pos hp]
        have hlen : ((c :: rest).drop nbspToken.length).length ≤ f := by
          have h6 : nbspToken.length = 6 := rfl
          simp only [List.length_drop, List.length_cons, h6]
          simp only [List.length_cons] at hs
          omega
        have h2 := ih _ hlen
        rw [List.singleton_append, occursB, Bool.or_eq_false_iff]
        refine ⟨?_, h2⟩
        have hn : nbspToken = '&' :: ("nbsp;".data) := rfl
        have hb : ('&' == ' ') = false := rfl
        rw [hn]
        simp [List.isPrefixOf, hb]
      · rw [replaceAllF, if_neg hp]
        have hX := ih rest (by
          simp only [List.length_cons] at hs
          omega)
        rw [occursB, Bool.or_eq_false_iff]
        refine ⟨?_, hX⟩
        rcases Bool.eq_false_or_eq_true
            (nbspToken.isPrefixOf (c :: replaceAllF nbspToken [' '] f rest)) with h' | h'
        swap
        · exact h'
        · exfalso
          have hn : nbspToken = '&' :: ("nbsp;".data) := rfl
          rw [hn] at h'
          simp only [List.isPrefixOf, Bool.and_eq_true, beq_iff_eq] at h'
          have htail : (("nbsp;".data)).isPrefixOf rest = true :=
            replaceAllF_prefix_nospace f rest _ h'.2 (by decide)
          apply hp
          rw [hn]
          simp only [List.isPrefixOf, Bool.and_eq_true, beq_iff_eq]
          exact ⟨h'.1, htail⟩

theorem dropWhile_sfx (p : Char → Bool) :
    ∀ l : List Char, ∃ u, u ++ l.dropWhile p = l := by
  intro l
  induction l with
  | nil => exact ⟨[], rfl⟩
  | cons c r ih =>
    by_cases h : p c = true
    · rcases ih with ⟨u, hu⟩
      exact ⟨c :: u, by simp [List.dropWhile_cons, h, hu]⟩
    · exact ⟨[], by simp [List.dropWhile_cons, h]⟩

theorem head_dropWhile (p : Char → Bool) :
    ∀ (l : List Char) (c : Char), (l.dropWhile p).head? = some c → p c = false := by
  intro l
  induction l with
  | nil => intro c h; cases h
  | cons a r ih =>
    intro c h
    by_cases hp : p a = true
    · rw [List.dropWhile_cons, if_pos hp] at h
      exact ih c h
    · rw [List.dropWhile_cons, if_neg hp] at h
      injection h with h1
      cases hval : p a with
      | false => exact h1 ▸ hval
      | true => exact absurd hval hp

theorem dropWhile_dropWhile (p : Char → Bool) :
    ∀ l : List Char, (l.dropWhile p).dropWhile p = l.dropWhile p := by
  intro l
  induction l with
  | nil => rfl
  | cons a r ih =>
    by_cases hp : p a = true
    · simp [List.dropWhile_cons, hp, ih]
    · simp [List.dropWhile_cons, hp]

theorem dropWhile_eq_self_of_head (p : Char → Bool) (l : List Char)
    (h : ∀ c, l.head? = some c → p c = false) : l.dropWhile p = l := by
  cases l with
  | nil => rfl
  | cons a r =>
    have := h a rfl
    simp [List.dropWhile_cons, this]

theorem jsTrim_infix (s : List Char) : ∃ u v, s = u ++ jsTrim s ++ v := by
  rcases dropWhile_sfx isWsB s with ⟨u, hu⟩
  rcases dropWhile_sfx isWsB (s.dropWhile isWsB).reverse with ⟨w, hw⟩
  refine ⟨u, w.reverse, ?_⟩
  have hd : s.dropWhile isWsB = jsTrim s ++ w.reverse := by
    have h2 := congrArg List.reverse hw
    simp only [List.reverse_append, List.reverse_reverse] at h2
    exact h2.symm
  rw [List.append_assoc, ← hd, hu]

theorem jsTrim_idem (s : List Char) : jsTrim (jsTrim s) = jsTrim s := by
  rcases dropWhile_sfx isWsB (s.dropWhile isWsB).reverse with ⟨w, hw⟩
  have hd : s.dropWhile isWsB = jsTrim s ++ w.reverse := by
    have h2 := congrArg List.reverse hw
    simp only [List.reverse_append, List.reverse_reverse] at h2
    exact h2.symm
  have hstep : (jsTrim s).dropWhile isWsB = jsTrim s := by
    apply dropWhile_eq_self_of_head
    intro c hc
    apply head_dropWhile isWsB s c
    rw [hd]
    cases hT : jsTrim s with
    | nil => rw [hT] at hc; cases hc
    | cons x xs =>
      rw [hT] at hc
      injection hc with h1
      rw [List.cons_append]
      rw [← h1]
      rfl
  show ((((jsTrim s).dropWhile isWsB).reverse).dropWhile isWsB).reverse = jsTrim s
  rw [hstep]
  show ((((s.dropWhile isWsB).reverse.dropWhile isWsB).reverse).reverse.dropWhile isWsB).reverse
      = jsTrim s
  rw [List.reverse_reverse, dropWhile_dropWhile]
  rfl

theorem occursB_of_infix (pat t u v t' : List Char) (h : occursB pat t = true)
    (he : t' = u ++ t ++ v) : occursB pat t' = true := by
  rcases (occursB_iff pat t).mp h with ⟨a, b, hab⟩
  apply (occursB_iff pat t').mpr
  refine ⟨u ++ a, b ++ v, ?_⟩
  rw [he, hab]
  simp [List.append_assoc]

/-- C9.  For every input string converted as a default/paragraph block, the
produced element is one plain paragraph whose text is `cleanHtml` of the
input; that text is free of any removable tag (no `<` of the text is
followed by a `>`), contains no remaining `&nbsp;` entity (each one was
replaced by a space, as the closed instance shows), and is its own trim. -/
theorem c9_paragraph_clean (html : List Char) (ihf : Bool) :
    convertParagraph html ihf =
      DocxElem.para [DocxRun.text (cleanHtml html) (some (if ihf then 20 else 24)) false]
        false ihf
    ∧ TagFree (cleanHtml html)
    ∧ occursB nbspToken (cleanHtml html) = false
    ∧ jsTrim (cleanHtml html) = cleanHtml html
    ∧ cleanHtml ("a&nbsp;b".data) = ("a b".data) := by
  refine ⟨rfl, ?_, ?_, jsTrim_idem _, by decide⟩
  · have h1 : TagFree (stripTags html) := stripGo_tagFree html false
    have h2 : TagFree (replaceAll nbspToken [' '] (stripTags html)) :=
      tagFree_replaceAllF _ _ h1
    rcases jsTrim_infix (replaceAll nbspToken [' '] (stripTags html)) with ⟨u, v, huv⟩
    exact tagFree_infix u _ v (huv ▸ h2)
  · have h2 : occursB nbspToken (replaceAll nbspToken [' '] (stripTags html)) = false :=
      replaceAllF_nbsp_free _ _ (le_refl _)
    rcases jsTrim_infix (replaceAll nbspToken [' '] (stripTags html)) with ⟨u, v, huv⟩
    rcases Bool.eq_false_or_eq_true (occursB nbspToken (cleanHtml html)) with h | h
    · exfalso
      have h3 : occursB nbspToken (replaceAll nbspToken [' '] (stripTags html)) = true :=
        occursB_of_infix nbspToken (cleanHtml html) u v _ h huv
      rw [h2] at h3
      cases h3
    · exact h

theorem c9_paragraph_clean_witness : '>' ∉ ("b".data) :=
  (c9_paragraph_clean ("<p>a<b".data) false).2.1 ("a".data) ("b".data) (by decide)

/-- C2 counterexample: the mapping `a -> x{{a}}` satisfies the claimed side
condition (its single value contains no OTHER keys placeholder), yet
substituting twice differs from substituting once on the text `{{a}}`. -/
theorem c2_counterexample :
    noCrossKeyPlaceholder cexPlaceholders = true ∧
    replacePlaceholders cexPlaceholders (replacePlaceholders cexPlaceholders cexText) ≠
      replacePlaceholders cexPlaceholders cexText := by
  constructor
  · decide
  · decide

/-- C2 amended: sequential per-key global replacement is idempotent provided
that after one application no placeholder of any key of the mapping (its own
key included) occurs in the result — the stated per-value side condition is
not enough, as the counterexample shows. -/
theorem c2_amended (m : List (List Char × List Char)) (t : List Char)
    (h : ∀ kv ∈ m, occursB (placeholderToken kv.1) (replacePlaceholders m t) = false) :
    replacePlaceholders m (replacePlaceholders m t) = replacePlaceholders m t :=
  replacePlaceholders_fixed m (replacePlaceholders m t) h

theorem c2_amended_witness :
    replacePlaceholders [(("name".data), ("John".data))]
        (replacePlaceholders [(("name".data), ("John".data))]
          ("Dear \x7b\x7bname\x7d\x7d,".data)) =
      replacePlaceholders [(("name".data), ("John".data))]
        ("Dear \x7b\x7bname\x7d\x7d,".data) :=
  c2_amended [(("name".data), ("John".data))] ("Dear \x7b\x7bname\x7d\x7d,".data)
    (by decide)

theorem filter_all_eq (p : List Char → Bool) :
    ∀ l : List (List Char), (∀ x ∈ l, p x = true) → l.filter p = l := by
  intro l
  induction l with
  | nil => intro _; rfl
  | cons a as ih =>
    intro h
    rw [List.filter_cons, if_pos (h a (List.mem_cons_self a as))]
    rw [ih (fun x hx => h x (List.mem_cons_of_mem a hx))]

theorem splitOnPageBreaks_ne_nil :
    ∀ (f : Nat) (acc s : List Char), splitOnPageBreaks f acc s ≠ [] := by
  intro f
  induction f with
  | zero => intro acc s; simp [splitOnPageBreaks]
  | succ f ih =>
    intro acc s
    cases s with
    | nil => simp [splitOnPageBreaks]
    | cons c rest =>
      cases hm : pageBreakLen (c :: rest) with
      | some n => simp [splitOnPageBreaks, hm]
      | none =>
        simp only [splitOnPageBreaks, hm]
        exact ih (c :: acc) rest

theorem splitRawPages_ne_nil (content : List Char) : splitRawPages content ≠ [] :=
  splitOnPageBreaks_ne_nil content.length [] content

/-- C1 counterexample: the body consisting of exactly one page-break marker
element (`<div class='page-break'></div>`) contains exactly one marker but
yields ONE page, not two (the piece before the marker is empty and is
discarded); moreover the second page of the scenario body converts to TWO
paragraph blocks (the residual `</div>` and `B`), not one. -/
theorem c1_counterexample :
    countPageBreakMarkers lonePageBreak = 1 ∧
    (splitContentIntoPages lonePageBreak).length = 1 ∧
    (convertContent scenarioSecondPage false).length = 2 :=
  ⟨rfl, rfl, rfl⟩

/-- C1 amended: the extractor returns the segments between markers that are
non-empty after trimming, in source order — hence AT MOST k+1 pages for k
markers, with equality exactly when no trimmed segment is empty; on the
scenario body it returns two pages, the first holding one paragraph block
(`A`), the second holding two (an empty residual from `</div>` and `B`). -/
theorem c1_amended :
    (∀ content : List Char,
        (splitContentIntoPages content).length ≤ countPageBreakMarkers content + 1)
    ∧ (∀ content : List Char,
        (∀ p ∈ (splitRawPages content).map jsTrim, (!p.isEmpty) = true) →
        (splitContentIntoPages content).length = countPageBreakMarkers content + 1)
    ∧ splitContentIntoPages scenarioContent = [("<p>A</p>".data), scenarioSecondPage]
    ∧ convertContent ("<p>A</p>".data) false =
        [DocxElem.para [DocxRun.text ("A".data) (some 24) false] false false]
    ∧ convertContent scenarioSecondPage false =
        [DocxElem.para [DocxRun.text [] (some 24) false] false false,
         DocxElem.para [DocxRun.text ("B".data) (some 24) false] false false] := by
  refine ⟨?_, ?_, rfl, rfl, rfl⟩
  · intro content
    have h1 : (splitContentIntoPages content).length ≤ (splitRawPages content).length := by
      calc (splitContentIntoPages content).length
          ≤ ((splitRawPages content).map jsTrim).length := List.length_filter_le _ _
        _ = (splitRawPages content).length := List.length_map _ _
    have h3 : 1 ≤ (splitRawPages content).length :=
      List.length_pos.mpr (splitRawPages_ne_nil content)
    unfold countPageBreakMarkers
    omega
  · intro content h
    have he : ((splitRawPages content).map jsTrim).filter (fun p => !p.isEmpty) =
        (splitRawPages content).map jsTrim := filter_all_eq _ _ h
    have h3 : 1 ≤ (splitRawPages content).length :=
      List.length_pos.mpr (splitRawPages_ne_nil content)
    have h4 : (splitContentIntoPages content).length = (splitRawPages content).length := by
      unfold splitContentIntoPages
      rw [he, List.length_map]
    unfold countPageBreakMarkers
    omega

theorem c1_amended_witness :
    (splitContentIntoPages scenarioContent).length =
      countPageBreakMarkers scenarioContent + 1 :=
  c1_amended.2.1 scenarioContent (by decide)

/-- C5: evaluating the dispatch at the failing inputs.  `convertContent`
turns the two-item list into ONE plain paragraph of the concatenated
stripped text (no bullets, body size, not bold) and the level-2 heading into
a plain size-24 non-bold paragraph, while the never-invoked `convertList`
and `convertHeading` would have produced the per-item bulleted paragraphs
and the bold size-28 paragraph the spec describes. -/
theorem c5_dispatch_eval :
    convertContent ulInput false =
      [DocxElem.para [DocxRun.text ("xy".data) (some 24) false] false false]
    ∧ convertContent h2Input false =
      [DocxElem.para [DocxRun.text ("T".data) (some 24) false] false false]
    ∧ convertList ulInput =
      [DocxElem.para [DocxRun.text ("x".data) none false] true false,
       DocxElem.para [DocxRun.text ("y".data) none false] true false]
    ∧ convertHeading h2Input =
      DocxElem.para [DocxRun.text ("T".data) (some 28) true] false false :=
  ⟨rfl, rfl, rfl, rfl⟩

/-- C4 counterexample: a DOCX render with a watermark whose application
fails does NOT return the rendered document — `generateDOCX` propagates the
failure, because the catch in src/services/watermarkService.js rethrows and
the catch in `generateDOCX` rethrows again. -/
theorem c4_counterexample :
    generateDOCX_model failPerSection ("h".data) ("x".data) ("f".data)
        (some ⟨WmKind.text, ("W".data)⟩) = Except.error ("boom".data)
    ∧ isOkE (generateDOCX_model failPerSection ("h".data) ("x".data) ("f".data)
        (some ⟨WmKind.text, ("W".data)⟩)) = false :=
  ⟨rfl, rfl⟩

/-- C4 amended: in the operative revision (src/services/watermarkService.js,
the module `docxService` resolves), a watermark failure is logged and
re-thrown, so `generateDOCX` surfaces it as a failure of the whole render;
only the duplicate revision of the service (unnamed part_006) swallows
watermark failures and always returns normally. -/
theorem c4_amended :
    (∀ (perSection : SectionM → Except (List Char) SectionM)
        (header content footer : List Char) (wm : WmSpec) (e : List Char),
        applyWatermarkToSections perSection (mkSections header content footer) =
          Except.error e →
        generateDOCX_model perSection header content footer (some wm) =
          Except.error e)
    ∧ (∀ body : Except (List Char) Unit, addWatermarkToDOCX_p6 body = Except.ok ()) := by
  constructor
  · intro perSection header content footer wm e h
    unfold generateDOCX_model addWatermarkToDOCX_src
    simp only [h]
  · intro body
    cases body <;> rfl

theorem c4_amended_witness :
    generateDOCX_model failPerSection ("h2".data) ("y".data) ("f2".data)
        (some ⟨WmKind.image, ("Zm9v".data)⟩) = Except.error ("boom".data) :=
  c4_amended.1 failPerSection ("h2".data) ("y".data) ("f2".data)
    ⟨WmKind.image, ("Zm9v".data)⟩ ("boom".data) rfl

theorem digitChar_ne_lbrace : ∀ d, digitChar d ≠ Char.ofNat 123 := by
  intro d
  match d with
  | 0 => decide
  | 1 => decide
  | 2 => decide
  | 3 => decide
  | 4 => decide
  | 5 => decide
  | 6 => decide
  | 7 => decide
  | 8 => decide
  | n + 9 =>
    show ('9' : Char) ≠ Char.ofNat 123
    decide

theorem natToDecAux_digits :
    ∀ (f n : Nat) (c : Char), c ∈ natToDecAux f n → ∃ d, c = digitChar d := by
  intro f
  induction f with
  | zero => intro n c hc; cases hc
  | succ f ih =>
    intro n c hc
    rw [natToDecAux] at hc
    split at hc
    · exact ⟨n, List.mem_singleton.mp hc⟩
    · rcases List.mem_append.mp hc with h | h
      · exact ih _ c h
      · exact ⟨n % 10, List.mem_singleton.mp h⟩

theorem natToDec_ne_lbrace (n : Nat) : ∀ c ∈ natToDec n, c ≠ Char.ofNat 123 := by
  intro c hc
  rcases natToDecAux_digits _ _ c hc with ⟨d, rfl⟩
  exact digitChar_ne_lbrace d

theorem replaceFirst_skip (pat rep : List Char) (hc : Char)
    (hpat : pat.head? = some hc) :
    ∀ (a s : List Char), (∀ c ∈ a, c ≠ hc) →
      replaceFirst pat rep (a ++ s) = a ++ replaceFirst pat rep s := by
  intro a
  induction a with
  | nil => intro s _; rfl
  | cons c as ih =>
    intro s h
    have hcc : c ≠ hc := h c (List.mem_cons_self _ _)
    have hpre : pat.isPrefixOf (c :: (as ++ s)) = false := by
      cases pat with
      | nil => cases hpat
      | cons p ps =>
        injection hpat with h1
        have hpc : (p == c) = false := by
          rw [h1]
          exact beq_eq_false_iff_ne.mpr (fun hh => hcc hh.symm)
        simp [List.isPrefixOf, hpc]
    rw [List.cons_append, replaceFirst, if_neg (by simp [hpre])]
    rw [ih s (fun x hx => h x (List.mem_cons_of_mem c hx))]
    rfl

theorem replaceFirst_at (pat rep s : List Char) (hne : pat ≠ []) :
    replaceFirst pat rep (pat ++ s) = rep ++ s := by
  cases pat with
  | nil => exact absurd rfl hne
  | cons p ps =>
    have hp : (p :: ps).isPrefixOf (p :: ps ++ s) = true := prefixOf_append_self (p :: ps) s
    rw [List.cons_append, replaceFirst, if_pos (by
      rw [← List.cons_append]
      exact hp)]
    congr 1
    show (p :: (ps ++ s)).drop (ps.length + 1) = s
    rw [List.drop_succ_cons]
    exact List.drop_left ps s

theorem mkSectionsAux_footer :
    ∀ (ps : List (List Char)) (header footer : List Char) (total i j : Nat)
      (sec : SectionM),
      (mkSectionsAux header footer total i ps).get? j = some sec →
      sec.footerElems = convertContent (footerForPage footer (i + j + 1) total) true := by
  intro ps
  induction ps with
  | nil => intro header footer total i j sec h; cases h
  | cons p ps ih =>
    intro header footer total i j sec h
    cases j with
    | zero =>
      have h1 : some (mkSection header footer total i p) = some sec := h
      injection h1 with h2
      rw [← h2]
      rfl
    | succ j =>
      have h2 : (mkSectionsAux header footer total (i + 1) ps).get? j = some sec := h
      have h3 := ih header footer total (i + 1) j sec h2
      have heq : i + 1 + j + 1 = i + (j + 1) + 1 := by omega
      rw [heq] at h3
      exact h3

/-- C6.  For every section list the assembler builds, the footer blocks of
the section at index j are the conversion of the footer string with
`{{page}}` replaced by the 1-based page index and `{{total}}` by the page
count, i.e. the substitution happens before block conversion; on the
template `Page {{page}} of {{total}}` the substituted string is exactly
`Page p of t` for every page index and count; and the single-page scenario
document carries the footer paragraph `Page 1 of 1`. -/
theorem c6_footer_pagination :
    (∀ (ps : List (List Char)) (header footer : List Char) (total i j : Nat)
        (sec : SectionM),
        (mkSectionsAux header footer total i ps).get? j = some sec →
        sec.footerElems = convertContent (footerForPage footer (i + j + 1) total) true)
    ∧ (∀ p t : Nat,
        footerForPage footerTemplate p t =
          ("Page ".data) ++ natToDec p ++ (" of ".data) ++ natToDec t)
    ∧ (mkSections ("h".data) ("x".data) footerTemplate).map SectionM.footerElems =
        [[DocxElem.para [DocxRun.text ("Page 1 of 1".data) (some 20) false] false true]] := by
  refine ⟨mkSectionsAux_footer, ?_, rfl⟩
  intro p t
  have hpageHead : pageTok.head? = some (Char.ofNat 123) := rfl
  have htotalHead : totalTok.head? = some (Char.ofNat 123) := rfl
  have hsplit : footerTemplate = ("Page ".data) ++ (pageTok ++ (" of ".data ++ totalTok)) :=
    rfl
  unfold footerForPage
  rw [hsplit]
  rw [replaceFirst_skip pageTok (natToDec p) _ hpageHead ("Page ".data) _ (by decide)]
  rw [replaceFirst_at pageTok (natToDec p) _ (by decide)]
  rw [replaceFirst_skip totalTok (natToDec t) _ htotalHead ("Page ".data) _ (by decide)]
  rw [replaceFirst_skip totalTok (natToDec t) _ htotalHead (natToDec p) _
    (natToDec_ne_lbrace p)]
  rw [replaceFirst_skip totalTok (natToDec t) _ htotalHead (" of ".data) _ (by decide)]
  have hself : replaceFirst totalTok (natToDec t) totalTok = natToDec t := by
    have h := replaceFirst_at totalTok (natToDec t) [] (by decide)
    simpa using h
  rw [hself]
  simp [List.append_assoc]

theorem c6_footer_pagination_witness :
    (mkSection ("h".data) footerTemplate 1 0 ("x".data)).footerElems =
      convertContent (footerForPage footerTemplate (0 + 0 + 1) 1) true :=
  c6_footer_pagination.1 [("x".data)] ("h".data) footerTemplate 1 0 0
    (mkSection ("h".data) footerTemplate 1 0 ("x".data)) rfl

/-- C7.  Any request carrying a text watermark longer than 100 characters is
answered with a 400 validation rejection by the middleware chain, whatever
the schema and HTML-validation outcomes are, and the render stage is never
reached. -/
theorem c7_watermark_length (r : DocReq) (hf : Bool) (w : WmSpec)
    (hw : r.watermark = some w) (hk : w.kind = WmKind.text)
    (hlen : 100 < w.content.length) :
    processDocumentRoute r hf ≠ RouteOutcome.rendered ∧
    ∃ m, processDocumentRoute r hf = RouteOutcome.responded 400 m := by
  have key : ∀ m, validateDocumentRequest r hf = ValidateResult.rejected 400 m →
      processDocumentRoute r hf ≠ RouteOutcome.rendered ∧
      ∃ m', processDocumentRoute r hf = RouteOutcome.responded 400 m' := by
    intro m hm
    have hp : processDocumentRoute r hf = RouteOutcome.responded 400 m := by
      unfold processDocumentRoute
      rw [hm]
    refine ⟨?_, ⟨m, hp⟩⟩
    rw [hp]
    intro hcon
    cases hcon
  rcases Bool.eq_false_or_eq_true (schemaOk r) with hsc | hsc
  · cases hf with
    | true =>
      exact key ("Invalid HTML".data) (by simp [validateDocumentRequest, hsc])
    | false =>
      exact key ("Watermark text must not exceed 100 characters".data)
        (by simp [validateDocumentRequest, hsc, hw, hk, hlen])
  · exact key ("schema validation failed".data)
      (by simp [validateDocumentRequest, hsc])

theorem c7_watermark_length_witness :
    processDocumentRoute
        ⟨some ("h".data), some ("c".data), some ("f".data), some ("docx".data),
          some ⟨WmKind.text, List.replicate 101 'a'⟩⟩ false ≠ RouteOutcome.rendered ∧
    ∃ m, processDocumentRoute
        ⟨some ("h".data), some ("c".data), some ("f".data), some ("docx".data),
          some ⟨WmKind.text, List.replicate 101 'a'⟩⟩ false =
      RouteOutcome.responded 400 m :=
  c7_watermark_length _ false ⟨WmKind.text, List.replicate 101 'a'⟩ rfl rfl (by decide)

/-- C8.  After a backend produced bytes, an artifact strictly above the
configured megabyte ceiling has its stored bytes replaced by their
compression, and decompressing them reproduces the original bytes whenever
the compressor is lossless; an artifact at or under the ceiling keeps its
bytes identical; the declared mime type and the filename (hence its
extension) do not depend on the size branch. -/
theorem c8_size_governor (gz gunz : List Nat → List Nat) (maxMB : Nat)
    (bytes : List Nat) (rid dt : List Char)
    (hround : ∀ b, gunz (gz b) = b) :
    (maxMB * (1024 * 1024) < bytes.length →
      (generateDocument_sizeGov gz maxMB bytes rid dt).bytes = gz bytes ∧
      gunz (generateDocument_sizeGov gz maxMB bytes rid dt).bytes = bytes)
    ∧ (¬ maxMB * (1024 * 1024) < bytes.length →
      (generateDocument_sizeGov gz maxMB bytes rid dt).bytes = bytes)
    ∧ (generateDocument_sizeGov gz maxMB bytes rid dt).mimeType = mimeTypeFor dt
    ∧ (generateDocument_sizeGov gz maxMB bytes rid dt).filename = rid ++ '.' :: dt := by
  refine ⟨?_, ?_, rfl, rfl⟩
  · intro h
    have hb : (generateDocument_sizeGov gz maxMB bytes rid dt).bytes = gz bytes := by
      show handleFileSize gz maxMB bytes = gz bytes
      unfold handleFileSize
      rw [if_pos h]
    exact ⟨hb, by rw [hb, hround]⟩
  · intro h
    show handleFileSize gz maxMB bytes = bytes
    unfold handleFileSize
    rw [if_neg h]

theorem c8_size_governor_witness :
    (generateDocument_sizeGov (fun b => (0 : Nat) :: b) 0 [7] ("r".data) ("pdf".data)).bytes
        = [0, 7] ∧
    List.tail (generateDocument_sizeGov (fun b => (0 : Nat) :: b) 0 [7] ("r".data)
        ("pdf".data)).bytes = [7] :=
  (c8_size_governor (fun b => 0 :: b) List.tail 0 [7] ("r".data) ("pdf".data)
    (fun _ => rfl)).1 (by decide)

theorem b64Val_b64Char : ∀ n, n < 64 → b64Val (b64Char n) = n := by decide

theorem isB64Char_b64Char : ∀ n, n < 64 → isB64Char (b64Char n) = true := by decide

theorem b64_decode_encode :
    ∀ bytes : List Nat, (∀ b ∈ bytes, b < 256) →
      nodeBase64Decode (b64Encode bytes) = bytes
  | [], _ => rfl
  | [b1], h => by
    have h1 : b1 < 256 := h b1 (by simp)
    have hd : b1 / 4 < 64 := by omega
    have hm : b1 % 4 * 16 < 64 := by omega
    show b64DecodeClean (List.filter isB64Char
      [b64Char (b1 / 4), b64Char (b1 % 4 * 16), '=', '=']) = [b1]
    rw [List.filter_cons, if_pos (isB64Char_b64Char _ hd),
      List.filter_cons, if_pos (isB64Char_b64Char _ hm)]
    rw [show List.filter isB64Char ['=', '='] = [] from rfl]
    show [b64Val (b64Char (b1 / 4)) * 4 + b64Val (b64Char (b1 % 4 * 16)) / 16] = [b1]
    rw [b64Val_b64Char _ hd, b64Val_b64Char _ hm]
    have he : b1 / 4 * 4 + b1 % 4 * 16 / 16 = b1 := by omega
    rw [he]
  | [b1, b2], h => by
    have h1 : b1 < 256 := h b1 (by simp)
    have h2 : b2 < 256 := h b2 (by simp)
    have hd : b1 / 4 < 64 := by omega
    have hm : b1 % 4 * 16 + b2 / 16 < 64 := by omega
    have hm2 : b2 % 16 * 4 < 64 := by omega
    show b64DecodeClean (List.filter isB64Char
      [b64Char (b1 / 4), b64Char (b1 % 4 * 16 + b2 / 16), b64Char (b2 % 16 * 4), '='])
      = [b1, b2]
    rw [List.filter_cons, if_pos (isB64Char_b64Char _ hd),
      List.filter_cons, if_pos (isB64Char_b64Char _ hm),
      List.filter_cons, if_pos (isB64Char_b64Char _ hm2)]
    rw [show List.filter isB64Char ['='] = [] from rfl]
    show [b64Val (b64Char (b1 / 4)) * 4 + b64Val (b64Char (b1 % 4 * 16 + b2 / 16)) / 16,
      b64Val (b64Char (b1 % 4 * 16 + b2 / 16)) % 16 * 16 + b64Val (b64Char (b2 % 16 * 4)) / 4]
      = [b1, b2]
    rw [b64Val_b64Char _ hd, b64Val_b64Char _ hm, b64Val_b64Char _ hm2]
    have he1 : b1 / 4 * 4 + (b1 % 4 * 16 + b2 / 16) / 16 = b1 := by omega
    have he2 : (b1 % 4 * 16 + b2 / 16) % 16 * 16 + b2 % 16 * 4 / 4 = b2 := by omega
    rw [he1, he2]
  | b1 :: b2 :: b3 :: rest, h => by
    have h1 : b1 < 256 := h b1 (by simp)
    have h2 : b2 < 256 := h b2 (by simp)
    have h3 : b3 < 256 := h b3 (by simp)
    have hd : b1 / 4 < 64 := by omega
    have hm : b1 % 4 * 16 + b2 / 16 < 64 := by omega
    have hm2 : b2 % 16 * 4 + b3 / 64 < 64 := by omega
    have hm3 : b3 % 64 < 64 := by omega
    have ih := b64_decode_encode rest (fun x hx => h x (by simp [hx]))
    have ih2 : b64DecodeClean (List.filter isB64Char (b64Encode rest)) = rest := ih
    show b64DecodeClean (List.filter isB64Char
      (b64Char (b1 / 4) :: b64Char (b1 % 4 * 16 + b2 / 16) ::
       b64Char (b2 % 16 * 4 + b3 / 64) :: b64Char (b3 % 64) :: b64Encode rest))
      = b1 :: b2 :: b3 :: rest
    rw [List.filter_cons, if_pos (isB64Char_b64Char _ hd),
      List.filter_cons, if_pos (isB64Char_b64Char _ hm),
      List.filter_cons, if_pos (isB64Char_b64Char _ hm2),
      List.filter_cons, if_pos (isB64Char_b64Char _ hm3)]
    rw [b64DecodeClean]
    rw [b64Val_b64Char _ hd, b64Val_b64Char _ hm, b64Val_b64Char _ hm2,
      b64Val_b64Char _ hm3, ih2]
    have he1 : b1 / 4 * 4 + (b1 % 4 * 16 + b2 / 16) / 16 = b1 := by omega
    have he2 : (b1 % 4 * 16 + b2 / 16) % 16 * 16 + (b2 % 16 * 4 + b3 / 64) / 4 = b2 := by
      omega
    have he3 : (b2 % 16 * 4 + b3 / 64) % 4 * 64 + b3 % 64 = b3 := by omega
    rw [he1, he2, he3]

/-- C10.  `isBase64` is total (the embedding is a plain function) and accepts
a string exactly when canonically re-encoding its forgiving decoding gives
the string back; every canonical encoding of a byte sequence is accepted
(the decoder is a left inverse of the encoder); the empty string is
accepted; unpadded (`QQ`) and whitespace-bearing (`QQ ==`) variants of an
accepted string (`QQ==`) are rejected; and the validator rejects an image
watermark whose content fails `isBase64` with a 400 before rendering. -/
theorem c10_base64_canonical :
    (∀ bytes : List Nat, (∀ b ∈ bytes, b < 256) →
        nodeBase64Decode (b64Encode bytes) = bytes ∧
        isBase64 (b64Encode bytes) = true)
    ∧ isBase64 [] = true
    ∧ isBase64 ("QQ".data) = false
    ∧ isBase64 ("QQ ==".data) = false
    ∧ isBase64 ("QQ==".data) = true
    ∧ (∀ (r : DocReq) (w : WmSpec), schemaOk r = true → r.watermark = some w →
        w.kind = WmKind.image → isBase64 w.content = false →
        processDocumentRoute r false =
          RouteOutcome.responded 400
            ("Watermark image must be a valid base64 string".data)) := by
  refine ⟨?_, rfl, rfl, rfl, rfl, ?_⟩
  · intro bytes h
    have hd := b64_decode_encode bytes h
    refine ⟨hd, ?_⟩
    unfold isBase64
    rw [hd]
    simp
  · intro r w hs hw hk hb
    simp [processDocumentRoute, validateDocumentRequest, hs, hw, hk, hb]

theorem c10_base64_canonical_witness :
    nodeBase64Decode (b64Encode [65, 0, 255]) = [65, 0, 255] ∧
    isBase64 (b64Encode [65, 0, 255]) = true :=
  c10_base64_canonical.1 [65, 0, 255] (by decide)
